import Mathlib

/-!
Verification of the core logic of `apple-music-discord` (`src/apple_music_discord/main.py`):
a Discord Rich Presence client for Apple Music.  Python strings are modelled as `List Char`
(ASCII range; the program only manipulates ASCII protocol constants), Python floats appearing
in `SongData` as rationals (the code only compares, subtracts and truncates them), and byte
streams as `List Nat` with each entry one byte.  Fallible Python code is modelled with
`Option`/`Except`; an uncaught Python exception is an `Except.error`.
-/

/-- Python `str` values, modelled as lists of characters. -/
abbrev Str := List Char

/-- The six characters Python's `str.strip()` removes (ASCII whitespace). -/
def pyIsSpace (c : Char) : Bool :=
  c = ' ' || c = '\t' || c = '\n' || c = '\r' || c = '\x0b' || c = '\x0c'

/-- Python `str.strip()`: drop whitespace from both ends. -/
def pyStrip (s : Str) : Str :=
  ((s.dropWhile pyIsSpace).reverse.dropWhile pyIsSpace).reverse

/-- Python `str.lower()` (ASCII letters; the only ones exercised here). -/
def pyLower (s : Str) : Str := s.map Char.toLower

/-- Python's substring test `needle in hay`. -/
def isSub (needle : Str) : Str → Bool
  | [] => needle.isEmpty
  | c :: t => needle.isPrefixOf (c :: t) || isSub needle t

/-- `Except.isOk` spelled out (the constructor-level success test). -/
def exceptIsOk {ε α : Type} : Except ε α → Bool
  | .ok _ => true
  | .error _ => false

/-- `SongData` (main.py lines 17-24): one validated playback snapshot. -/
structure SongData where
  title : Str
  artist : Str
  album : Str
  duration : ℚ
  position : ℚ
  url : Option Str
deriving DecidableEq

/-- `SongData.__post_init__` (main.py lines 26-39).  A raised `ValueError` is
`Except.error` carrying the message; note the checks run in source order:
duration, position, clamp, title, artist. -/
def mkSongData (title artist album : Str) (duration position : ℚ) (url : Option Str) :
    Except String SongData :=
  if duration < 0 then .error "Duration must be non-negative"
  else if position < 0 then .error "Position must be non-negative"
  else
    let position2 := if position > duration then duration else position
    if pyStrip title = [] then .error "Title cannot be empty"
    else if pyStrip artist = [] then .error "Artist cannot be empty"
    else .ok ⟨title, artist, album, duration, position2, url⟩

/-- Python `int()` applied to a float/rational: truncation toward zero. -/
def pyInt (q : ℚ) : Int := if 0 ≤ q then ⌊q⌋ else ⌈q⌉

/-- The activity payload assembled by `main` (main.py lines 408-427).
`typ` stands for the payload's `type` field (`type` is a Lean keyword). -/
structure Activity where
  typ : Nat
  name : Str
  details : Str
  state : Str
  tsStart : Int
  tsEnd : Int
  buttonLabel : Str
  buttonUrl : Str
  assets : Option (Str × Str)
deriving DecidableEq

/-- The orchestrator's mutable caches (main.py lines 382-384):
`last_was_playing`, `last_song_info`, `cached_artwork`. -/
structure LoopState where
  lastWasPlaying : Option Bool
  lastSongInfo : Option Str
  cachedArtwork : Option Str
deriving DecidableEq

/-- Initial cache state at loop entry (main.py lines 382-384): all `None`. -/
def initLoopState : LoopState := ⟨none, none, none⟩

/-- Python `a or b` on an optional string: `b` when `a` is `None` or empty. -/
def pyOrStr (a : Option Str) (b : Str) : Str :=
  match a with
  | some u => if u = [] then b else u
  | none => b

/-- One iteration of the polling loop body (main.py lines 388-436), as a pure
transition.  `now` is `int(time.time())`; `artOracle` is the value the artwork
lookup would return this tick and `urlOracle` the canonical-URL lookup result
(both external collaborators).  The second component lists the arguments of the
`set_activity` calls the tick performs, in order (`none` = clear). -/
def tick (now : Int) (artOracle : Option Str) (urlOracle : Str)
    (song : Option SongData) (st : LoopState) : LoopState × List (Option Activity) :=
  match song with
  | some s =>
    let info := s.artist ++ '-' :: s.title
    let art := if st.lastSongInfo ≠ some info then artOracle else st.cachedArtwork
    let lastInfo := if st.lastSongInfo ≠ some info then some info else st.lastSongInfo
    let url := pyOrStr s.url urlOracle
    let a : Activity :=
      { typ := 2
        name := "Apple Music".toList
        details := s.title
        state := "by ".toList ++ s.artist
        tsStart := now - pyInt s.position
        tsEnd := now + pyInt (s.duration - s.position)
        buttonLabel := "Listen on Apple Music".toList
        buttonUrl := url
        assets :=
          match art with
          | some aw =>
            if aw = [] then none else some (aw, s.album ++ " by ".toList ++ s.artist)
          | none => none }
    (⟨some true, lastInfo, art⟩, [some a])
  | none =>
    if st.lastWasPlaying ≠ some false then
      (⟨some false, st.lastSongInfo, st.cachedArtwork⟩, [none])
    else (st, [])

/-- JSON values as produced by `json.dumps` / consumed by `json.loads`.
Numbers are restricted to integers and strings to character lists (the
payloads of this program are integers and ASCII strings). -/
inductive Json where
  | null : Json
  | bool : Bool → Json
  | num : Int → Json
  | str : Str → Json
  | arr : List Json → Json
  | obj : List (Str × Json) → Json

/-- A character `json.dumps` (with its default `ensure_ascii=True`) emits
verbatim inside a string literal: printable ASCII other than `"` and `\`. -/
def okChar (c : Char) : Bool := 0x20 ≤ c.toNat && c.toNat < 0x7f && c ≠ '"' && c ≠ '\\'

def okString (s : Str) : Bool := s.all okChar

mutual

/-- Payloads whose `json.dumps` image our serializer models exactly:
every string is printable ASCII without escapes. -/
def wfJson : Json → Bool
  | .null => true
  | .bool _ => true
  | .num _ => true
  | .str s => okString s
  | .arr xs => wfList xs
  | .obj kvs => wfFields kvs

def wfList : List Json → Bool
  | [] => true
  | x :: xs => wfJson x && wfList xs

def wfFields : List (Str × Json) → Bool
  | [] => true
  | (k, v) :: kvs => okString k && wfJson v && wfFields kvs

end

def digitChar : Nat → Char
  | 0 => '0' | 1 => '1' | 2 => '2' | 3 => '3' | 4 => '4'
  | 5 => '5' | 6 => '6' | 7 => '7' | 8 => '8' | 9 => '9'
  | _ => '?'

/-- Decimal digits of `n`, least significant first (`fuel ≥ n` suffices). -/
def natToDigitsRev : Nat → Nat → List Nat
  | 0, _ => []
  | fuel + 1, n => if n = 0 then [] else n % 10 :: natToDigitsRev fuel (n / 10)

/-- Decimal rendering of a natural number, as Python prints it. -/
def dumpNat (n : Nat) : Str :=
  if n = 0 then ['0'] else (natToDigitsRev n n).reverse.map digitChar

/-- Decimal rendering of an integer, as `json.dumps` prints an `int`. -/
def dumpInt (n : Int) : Str :=
  if n < 0 then '-' :: dumpNat n.natAbs else dumpNat n.natAbs

/-- `json.dumps` string escaping restricted to the two escapes our
well-formed strings can need (`"` and `\`). -/
def escapeChar (c : Char) : Str :=
  if c = '"' then ['\\', '"'] else if c = '\\' then ['\\', '\\'] else [c]

def escapeStr (s : Str) : Str := s.flatMap escapeChar

mutual

/-- `json.dumps` with default separators `", "` and `": "` (the defaults the
program uses), on the `Json` model. -/
def dumpJson : Json → Str
  | .null => "null".toList
  | .bool true => "true".toList
  | .bool false => "false".toList
  | .num n => dumpInt n
  | .str s => '"' :: (escapeStr s ++ ['"'])
  | .arr xs => '[' :: (dumpArr xs ++ [']'])
  | .obj kvs => '\x7b' :: (dumpObj kvs ++ ['\x7d'])

def dumpArr : List Json → Str
  | [] => []
  | [x] => dumpJson x
  | x :: y :: xs => dumpJson x ++ ',' :: ' ' :: dumpArr (y :: xs)

def dumpObj : List (Str × Json) → Str
  | [] => []
  | [(k, v)] => '"' :: (escapeStr k ++ '"' :: ':' :: ' ' :: dumpJson v)
  | (k, v) :: kv :: kvs =>
    ('"' :: (escapeStr k ++ '"' :: ':' :: ' ' :: dumpJson v)) ++ ',' :: ' ' :: dumpObj (kv :: kvs)

end

mutual

/-- Parser fuel sufficient for a value (one unit per parser-level call). -/
def sizeJ : Json → Nat
  | .null => 1
  | .bool _ => 1
  | .num _ => 1
  | .str _ => 1
  | .arr xs => 1 + sizeItems xs
  | .obj kvs => 1 + sizeFields kvs

def sizeItems : List Json → Nat
  | [] => 0
  | x :: xs => 1 + sizeJ x + sizeItems xs

def sizeFields : List (Str × Json) → Nat
  | [] => 0
  | (_, v) :: kvs => 1 + sizeJ v + sizeFields kvs

end

def isDigitCh (c : Char) : Bool := 48 ≤ c.toNat && c.toNat ≤ 57

def parseNatVal (cs : Str) : Nat := cs.foldl (fun acc c => acc * 10 + (c.toNat - 48)) 0

def parseNatPart (s : Str) : Option (Nat × Str) :=
  if s.takeWhile isDigitCh = [] then none
  else some (parseNatVal (s.takeWhile isDigitCh), s.drop (s.takeWhile isDigitCh).length)

def parseNum (s : Str) : Option (Json × Str) :=
  if s.head? = some '-' then
    (parseNatPart s.tail).map (fun p => (Json.num (-(p.1 : Int)), p.2))
  else
    (parseNatPart s).map (fun p => (Json.num (p.1 : Int), p.2))

/-- String-literal body parser: consumes up to and including the closing
quote, undoing the two escapes. -/
def parseStrBody : Str → Option (Str × Str)
  | [] => none
  | c :: t =>
    if c = '"' then some ([], t)
    else if c = '\\' then
      match t with
      | [] => none
      | e :: t2 =>
        if e = '"' ∨ e = '\\' then (parseStrBody t2).map (fun p => (e :: p.1, p.2)) else none
    else (parseStrBody t).map (fun p => (c :: p.1, p.2))

mutual

/-- Recursive-descent JSON value parser (models `json.loads` on the canonical
output format of `json.dumps`, which is the only input the round-trip claim
exercises). -/
def parseVal : Nat → Str → Option (Json × Str)
  | 0, _ => none
  | _ + 1, [] => none
  | fuel + 1, c :: t =>
    if isDigitCh c ∨ c = '-' then parseNum (c :: t)
    else if c = '"' then (parseStrBody t).map (fun p => (Json.str p.1, p.2))
    else if c = '[' then
      if t.head? = some ']' then some (Json.arr [], t.tail)
      else (parseItems fuel t).map (fun p => (Json.arr p.1, p.2))
    else if c = '\x7b' then
      if t.head? = some '\x7d' then some (Json.obj [], t.tail)
      else (parseFields fuel t).map (fun p => (Json.obj p.1, p.2))
    else
      match c, t with
      | 'n', 'u' :: 'l' :: 'l' :: rest => some (Json.null, rest)
      | 't', 'r' :: 'u' :: 'e' :: rest => some (Json.bool true, rest)
      | 'f', 'a' :: 'l' :: 's' :: 'e' :: rest => some (Json.bool false, rest)
      | _, _ => none

def parseItems : Nat → Str → Option (List Json × Str)
  | 0, _ => none
  | fuel + 1, s =>
    match parseVal fuel s with
    | none => none
    | some (x, r) =>
      match r with
      | ',' :: ' ' :: r2 => (parseItems fuel r2).map (fun p => (x :: p.1, p.2))
      | ']' :: r2 => some ([x], r2)
      | _ => none

def parseFields : Nat → Str → Option (List (Str × Json) × Str)
  | 0, _ => none
  | fuel + 1, s =>
    match s with
    | '"' :: s1 =>
      match parseStrBody s1 with
      | some (k, r1) =>
        match r1 with
        | ':' :: ' ' :: r2 =>
          match parseVal fuel r2 with
          | some (v, r3) =>
            match r3 with
            | ',' :: ' ' :: r4 => (parseFields fuel r4).map (fun p => ((k, v) :: p.1, p.2))
            | '\x7d' :: r4 => some ([(k, v)], r4)
            | _ => none
          | none => none
        | _ => none
      | none => none
    | _ => none

end

/-- `json.loads`: parse one value consuming the whole input. -/
def loads (s : Str) : Option Json :=
  match parseVal (s.length + 1) s with
  | some (j, []) => some j
  | _ => none

/-- `struct.pack("<I", n)`: four little-endian bytes. -/
def le32 (n : Nat) : List Nat :=
  [n % 256, n / 256 % 256, n / 65536 % 256, n / 16777216 % 256]

/-- `struct.unpack("<I", ...)` on four bytes. -/
def readLE32 (a b c d : Nat) : Nat := a + 256 * b + 65536 * c + 16777216 * d

/-- `str.encode("utf-8")` on the ASCII range (all payloads here are ASCII,
since `json.dumps` defaults to `ensure_ascii=True`). -/
def asciiEncode (s : Str) : List Nat := s.map Char.toNat

/-- `bytes.decode("utf-8")`, modelled on the ASCII range; a byte outside it
is a decode failure (`UnicodeDecodeError`). -/
def asciiDecode (bs : List Nat) : Option Str :=
  if bs.all (fun b => b < 128) then some (bs.map Char.ofNat) else none

/-- `_send_packet` (main.py lines 105-117): the bytes written to the socket
for a given opcode and payload, given a socket is present.  A `struct.error`
(opcode or length not a uint32) is re-raised as `RuntimeError`, modelled as
`Except.error`. -/
def sendPacketBytes (opcode : Nat) (data : Json) : Except String (List Nat) :=
  let payload := asciiEncode (dumpJson data)
  if opcode < 4294967296 ∧ payload.length < 4294967296 then
    .ok (le32 opcode ++ le32 payload.length ++ payload)
  else .error "Failed to send packet"

/-- `_read_packet` (main.py lines 119-141).  `stream` holds the bytes the
socket will deliver.  The catch-all branch models `recv(8)` returning fewer
than 8 bytes.  Crucially, the two `raise ValueError(...)` statements for a
bad length field are NOT caught by the function's
`except (struct.error, json.JSONDecodeError, UnicodeDecodeError, OSError)`
clause (plain `ValueError` is a superclass of `json.JSONDecodeError`, not a
subclass), so they escape as `Except.error`; decode/parse failures on the
body are caught and become `(None, None)`. -/
def readPacket (hasSock : Bool) (stream : List Nat) : Except String (Option Nat × Option Json) :=
  if hasSock = false then .ok (none, none)
  else
    match stream with
    | b0 :: b1 :: b2 :: b3 :: b4 :: b5 :: b6 :: b7 :: tail =>
      let opcode := readLE32 b0 b1 b2 b3
      let len := readLE32 b4 b5 b6 b7
      if 1048576 < len then .error "Packet too large"
      else if len = 0 then .error "Invalid packet length"
      else
        match asciiDecode (tail.take len) with
        | none => .ok (none, none)
        | some s =>
          match loads s with
          | none => .ok (none, none)
          | some j => .ok (some opcode, some j)
    | _ => .ok (none, none)

/-- The connection-visible state of `DiscordRPC`: the `connected` flag and the
socket handle, identified by the index of the socket path it was opened on. -/
structure ConnState where
  connected : Bool
  sock : Option Nat
deriving DecidableEq

/-- Outcome of attempting one candidate socket in `connect` (main.py lines
69-81): either some exception was raised along the way (socket create/connect,
`_send_packet`, `_read_packet`'s uncaught `ValueError`), or `_read_packet`
returned, with `resp` the payload part of its result. -/
inductive HSOutcome where
  | exn : HSOutcome
  | resp : Option Json → HSOutcome

/-- The environment `connect` runs against: whether the runtime directory
exists, which candidate socket paths exist, and what attempting each yields. -/
structure ConnEnv where
  tmpdirExists : Bool
  pathExists : Nat → Bool
  handshake : Nat → HSOutcome

/-- Python truthiness of a JSON value. -/
def pyTruthy : Json → Bool
  | .null => false
  | .bool b => b
  | .num n => n != 0
  | .str s => !s.isEmpty
  | .arr xs => !xs.isEmpty
  | .obj kvs => !kvs.isEmpty

/-- `dict.get` on the parsed JSON object (first binding wins; the payloads in
play have no duplicate keys). -/
def assocGet : List (Str × Json) → Str → Option Json
  | [], _ => none
  | (k, v) :: kvs, key => if k = key then some v else assocGet kvs key

/-- `response.get("evt") == v` on an object's bindings. -/
def evtIs (kvs : List (Str × Json)) (v : Str) : Bool :=
  match assocGet kvs ['e', 'v', 't'] with
  | some (.str s) => s == v
  | _ => false

/-- Result of evaluating `response and response.get("evt") == "READY"`
(main.py line 82): `raised` models the `AttributeError` a truthy non-dict
response causes (caught by the loop's `except Exception`). -/
inductive StepRes where
  | raised : StepRes
  | ready : Bool → StepRes
deriving DecidableEq

def connectStep : Option Json → StepRes
  | none => .ready false
  | some j =>
    if pyTruthy j = false then .ready false
    else
      match j with
      | .obj kvs => .ready (evtIs kvs ['R', 'E', 'A', 'D', 'Y'])
      | _ => .raised

/-- Whether candidate `i` makes `connect` succeed: its path exists and the
handshake attempt returns a READY response. -/
def succB (env : ConnEnv) (i : Nat) : Bool :=
  env.pathExists i &&
    (match env.handshake i with
     | .resp r => (match connectStep r with | .ready true => true | _ => false)
     | .exn => false)

/-- The candidate loop of `connect` (main.py lines 63-101).  Returns the
result, the final state, and the list of candidate indices actually attempted
(paths that do not exist are skipped without an attempt).  An exception closes
and clears the socket before continuing; a non-READY response leaves the
just-opened socket in place and continues. -/
def connectLoop (env : ConnEnv) : List Nat → ConnState → Bool × ConnState × List Nat
  | [], st => (false, st, [])
  | i :: rest, st =>
    if env.pathExists i = false then connectLoop env rest st
    else
      match env.handshake i with
      | .exn =>
        let r := connectLoop env rest { st with sock := none }
        (r.1, r.2.1, i :: r.2.2)
      | .resp resp =>
        let st1 : ConnState := { st with sock := some i }
        match connectStep resp with
        | .raised =>
          let r := connectLoop env rest { st1 with sock := none }
          (r.1, r.2.1, i :: r.2.2)
        | .ready true => (true, { st1 with connected := true }, [i])
        | .ready false =>
          let r := connectLoop env rest st1
          (r.1, r.2.1, i :: r.2.2)

/-- `connect` (main.py lines 53-103). -/
def connectRPC (env : ConnEnv) (st : ConnState) : Bool × ConnState × List Nat :=
  if st.connected then (true, st, [])
  else if env.tmpdirExists = false then (false, st, [])
  else connectLoop env (List.range 10) st

/-- Transport outcome of one `set_activity` call: either something raised
while sending/reading (caught by its `except Exception`), or `_read_packet`
returned with this payload. -/
inductive SAEnv where
  | exn : SAEnv
  | resp : Option Json → SAEnv

/-- `if response and response.get("evt") == "ERROR": return False / return True`
(main.py lines 160-163), including the `AttributeError` a truthy non-dict
response causes (caught by the surrounding `except Exception`, hence `false`). -/
def setActCheck : Option Json → Bool
  | none => true
  | some j =>
    if pyTruthy j = false then true
    else
      match j with
      | .obj kvs => !(evtIs kvs ['E', 'R', 'R', 'O', 'R'])
      | _ => false

/-- `set_activity` (main.py lines 143-165): result and post-state. -/
def setActivity (env : SAEnv) (st : ConnState) : Bool × ConnState :=
  if st.connected = false ∨ st.sock = none then (false, st)
  else
    match env with
    | .exn => (false, st)
    | .resp r => (setActCheck r, st)

/-- One entry of the iTunes search response's `results` list, with the three
fields `get_apple_music_url` reads.  `artistName`/`trackName` default to `""`
when absent (the code uses `.get(..., "")`); `trackViewUrl` has no default. -/
structure ITunesResult where
  artistName : Str
  trackName : Str
  trackViewUrl : Option Str
deriving DecidableEq

/-- The iTunes search HTTP exchange: `fail` covers every exception path of the
`try` block (connection error, non-200, JSON parse failure, timeout), `ok`
a parsed `results` list (missing/empty `results` is `ok []`). -/
inductive ITunesResp where
  | fail : ITunesResp
  | ok : List ITunesResult → ITunesResp

/-- The match heuristic of `get_apple_music_url` (main.py lines 261-266):
case-insensitive substring containment in either direction, for artist and
title both. -/
def resultMatches (artist title : Str) (r : ITunesResult) : Bool :=
  let la := pyLower artist
  let lt := pyLower title
  let ra := pyLower r.artistName
  let rt := pyLower r.trackName
  (isSub la ra || isSub ra la) && (isSub lt rt || isSub rt lt)

/-- Python `str.replace`: replace every non-overlapping occurrence of `pat`
left to right (`fuel ≥ length of the subject` suffices). -/
def replaceAux (pat rep : Str) : Nat → Str → Str
  | 0, s => s
  | fuel + 1, s =>
    if pat.isEmpty = false && pat.isPrefixOf s then
      rep ++ replaceAux pat rep fuel (s.drop pat.length)
    else
      match s with
      | [] => []
      | c :: t => c :: replaceAux pat rep fuel t

def pyReplace (s pat rep : Str) : Str := replaceAux pat rep s.length s

def itunesDomain : Str := "itunes.apple.com".toList

def musicDomain : Str := "music.apple.com".toList

def amBase : Str := "https://music.apple.com/".toList

def amSearchBase : Str := "https://music.apple.com/search?term=".toList

def hexChar : Nat → Char
  | 0 => '0' | 1 => '1' | 2 => '2' | 3 => '3' | 4 => '4' | 5 => '5' | 6 => '6' | 7 => '7'
  | 8 => '8' | 9 => '9' | 10 => 'A' | 11 => 'B' | 12 => 'C' | 13 => 'D' | 14 => 'E' | 15 => 'F'
  | _ => '?'

/-- Characters `urllib.parse.quote` leaves as-is with its default `safe="/"`. -/
def urlSafeChar (c : Char) : Bool :=
  ('A' ≤ c && c ≤ 'Z') || ('a' ≤ c && c ≤ 'z') || ('0' ≤ c && c ≤ '9') ||
    c = '_' || c = '.' || c = '-' || c = '~' || c = '/'

/-- `urllib.parse.quote` on the ASCII range: percent-encode everything unsafe. -/
def pyQuote (s : Str) : Str :=
  s.flatMap (fun c =>
    if urlSafeChar c then [c] else ['%', hexChar (c.toNat / 16 % 16), hexChar (c.toNat % 16)])

/-- The fallback tail of `get_apple_music_url` (main.py lines 286-292): a
search link built from `f"{artist} {title}"`, or the bare storefront URL when
that query is blank. -/
def fallbackUrl (artist title : Str) : Str :=
  if pyStrip (artist ++ ' ' :: title) = [] then amBase
  else amSearchBase ++ pyQuote (pyStrip (artist ++ ' ' :: title))

/-- The result-selection loop of `get_apple_music_url` (main.py lines
256-273): first matching result with a truthy string `trackViewUrl`. -/
def findMatch (artist title : Str) : List ITunesResult → Option Str
  | [] => none
  | r :: rest =>
    if resultMatches artist title r then
      match r.trackViewUrl with
      | some u => if u = [] then findMatch artist title rest else some u
      | none => findMatch artist title rest
    else findMatch artist title rest

/-- `get_apple_music_url` (main.py lines 225-292).  The `album` argument is
unused by the source and omitted.  The domain rewrite is
`track_view_url.replace("itunes.apple.com", "music.apple.com")`. -/
def getAppleMusicUrl (artist title : Str) (resp : ITunesResp) : Str :=
  if pyStrip artist = [] ∧ pyStrip title = [] then amBase
  else
    if pyStrip (title ++ ' ' :: artist) = [] then amBase
    else
      match resp with
      | .fail => fallbackUrl artist title
      | .ok results =>
        match findMatch artist title results with
        | some u => pyReplace u itunesDomain musicDomain
        | none => fallbackUrl artist title

/-- Concrete fixture: the handshake payload `main` would send. -/
def wPayload : Json :=
  Json.obj [(['v'], Json.num 1), ("client_id".toList, Json.str "1410325920039960657".toList)]

/-- Concrete fixture: a READY handshake response. -/
def wReadyResp : Json := Json.obj [(['e', 'v', 't'], Json.str ['R', 'E', 'A', 'D', 'Y'])]

/-- Concrete fixture: a non-READY handshake response. -/
def wOtherResp : Json := Json.obj [(['e', 'v', 't'], Json.str ['P', 'I', 'N', 'G'])]

/-- Concrete fixture: the bindings of an ERROR frame response. -/
def wErrKvs : List (Str × Json) := [(['e', 'v', 't'], Json.str ['E', 'R', 'R', 'O', 'R'])]

/-- Concrete fixture environment for `connect`: paths 2 and 5 exist, path 2
answers a non-READY event, path 5 answers READY. -/
def wConnEnv : ConnEnv :=
  { tmpdirExists := true
    pathExists := fun i => i = 2 || i = 5
    handshake := fun i =>
      if i = 2 then .resp (some wOtherResp)
      else if i = 5 then .resp (some wReadyResp)
      else .exn }

/-- Concrete fixture snapshot for the timestamp scenario of the spec. -/
def wSongA : SongData :=
  ⟨"Song A".toList, "Artist B".toList, "Album C".toList, 200, 50, none⟩

/-- Concrete fixture iTunes results: two non-matching, then one matching. -/
def wRes1 : ITunesResult := ⟨"Other".toList, "Nope".toList, some ("https://itunes.apple.com/a".toList)⟩

def wRes2 : ITunesResult := ⟨"Artist B".toList, "Different".toList, some ("https://itunes.apple.com/b".toList)⟩

def wRes3 : ITunesResult :=
  ⟨"The Artist B".toList, "Song A (Remix)".toList,
    some ("https://itunes.apple.com/us/album/song-a/123".toList)⟩

/-- State invariance of `set_activity`, shared by several conjuncts below:
no branch of the function assigns `connected` or the socket. -/
theorem setActivity_snd (e : SAEnv) (s : ConnState) : (setActivity e s).2 = s := by
  unfold setActivity
  split_ifs
  · rfl
  · cases e <;> rfl

/-- C3: `setActivity` never modifies the connection state: it returns false
immediately when not connected; on a response whose `evt` is `"ERROR"` it
returns false while leaving `connected` and the socket untouched; and on any
transport-level failure (anything raised while sending or reading) it returns
false without changing state. -/
theorem setActivity_state_invariant (env : SAEnv) (st : ConnState) :
    ((setActivity env st).2 = st) ∧
    (st.connected = false → (setActivity env st).1 = false) ∧
    (env = SAEnv.exn → (setActivity env st).1 = false) ∧
    (∀ kvs, env = SAEnv.resp (some (Json.obj kvs)) →
      evtIs kvs ['E', 'R', 'R', 'O', 'R'] = true →
      (setActivity env st).1 = false ∧ (setActivity env st).2.connected = st.connected ∧
      (setActivity env st).2.sock = st.sock) := by
  refine ⟨setActivity_snd env st, ?_, ?_, ?_⟩
  · intro h
    unfold setActivity
    rw [if_pos (Or.inl h)]
  · intro h
    subst h
    unfold setActivity
    split_ifs
    · rfl
    · rfl
  · intro kvs henv herr
    subst henv
    have hkne : kvs ≠ [] := by
      intro hk
      subst hk
      simp [evtIs, assocGet] at herr
    refine ⟨?_, by rw [setActivity_snd], by rw [setActivity_snd]⟩
    unfold setActivity
    split_ifs with h
    · rfl
    · show setActCheck (some (Json.obj kvs)) = false
      have htr : pyTruthy (Json.obj kvs) = true := by simp [pyTruthy, hkne]
      simp [setActCheck, htr, herr]

/-- C3 witness: an ERROR response on a connected state returns false and
leaves the state (connected flag and socket) exactly as it was. -/
theorem setActivity_state_invariant_witness :
    (setActivity (SAEnv.resp (some (Json.obj wErrKvs))) ⟨true, some 0⟩).1 = false ∧
    (setActivity (SAEnv.resp (some (Json.obj wErrKvs))) ⟨true, some 0⟩).2 = ⟨true, some 0⟩ := by
  have h := setActivity_state_invariant (SAEnv.resp (some (Json.obj wErrKvs))) ⟨true, some 0⟩
  exact ⟨(h.2.2.2 wErrKvs rfl (by decide)).1, h.1⟩

/-- A not-playing tick from a state already marked not-playing is a no-op
(main.py line 434's `is not False` guard fails). -/
theorem tick_none_noop (now : Int) (ao : Option Str) (uo : Str) (st : LoopState)
    (h : st.lastWasPlaying = some false) : tick now ao uo none st = (st, []) := by
  simp [tick, h]

/-- A not-playing tick from any state not marked exactly not-playing issues
one clear and marks the state not-playing. -/
theorem tick_none_clears (now : Int) (ao : Option Str) (uo : Str) (st : LoopState)
    (h : st.lastWasPlaying ≠ some false) :
    tick now ao uo none st = (⟨some false, st.lastSongInfo, st.cachedArtwork⟩, [none]) := by
  simp [tick, h]

/-- C4: on a tick that observes nothing playing, `set_activity(None)` is
called exactly once when the previous tick was playing, zero times on every
subsequent consecutive not-playing tick, and a clear is issued precisely when
the cached last-playing state is not exactly `False`. -/
theorem loop_clear_debounce (st : LoopState) (now now2 : Int) (ao ao2 : Option Str)
    (uo uo2 : Str) :
    (st.lastWasPlaying = some true →
      (tick now ao uo none st).2 = [none] ∧
      (tick now2 ao2 uo2 none (tick now ao uo none st).1).2 = []) ∧
    ((tick now ao uo none st).1.lastWasPlaying = some false) ∧
    (st.lastWasPlaying = some false → tick now ao uo none st = (st, [])) ∧
    ((tick now ao uo none st).2 ≠ [] ↔ st.lastWasPlaying ≠ some false) := by
  refine ⟨?_, ?_, ?_, ?_⟩
  · intro htrue
    have hne : st.lastWasPlaying ≠ some false := by simp [htrue]
    rw [tick_none_clears now ao uo st hne]
    exact ⟨rfl, by rw [tick_none_noop now2 ao2 uo2 _ rfl]⟩
  · by_cases h : st.lastWasPlaying = some false
    · rw [tick_none_noop now ao uo st h]
      exact h
    · rw [tick_none_clears now ao uo st h]
  · exact tick_none_noop now ao uo st
  · by_cases h : st.lastWasPlaying = some false
    · rw [tick_none_noop now ao uo st h]
      simp [h]
    · rw [tick_none_clears now ao uo st h]
      simp [h]

/-- C4 witness: from a playing state, the first not-playing tick issues one
clear and the next not-playing tick issues none. -/
theorem loop_clear_debounce_witness :
    (tick 0 none [] none ⟨some true, none, none⟩).2 = [none] ∧
    (tick 0 none [] none (tick 0 none [] none ⟨some true, none, none⟩).1).2 = [] :=
  (loop_clear_debounce ⟨some true, none, none⟩ 0 0 none none [] []).1 rfl

/-- C5: the caches initialize with `last_was_playing = None`, so the very
first tick that observes nothing playing issues a clear (`None` is not
exactly `False`), even though no playing-to-not-playing transition happened. -/
theorem loop_first_tick_clears (now : Int) (ao : Option Str) (uo : Str) :
    initLoopState.lastWasPlaying = none ∧
    (tick now ao uo none initLoopState).2 = [none] :=
  ⟨rfl, rfl⟩

/-- C7: with non-blank title and artist, non-negative duration and position,
and position exceeding duration, construction succeeds and the snapshot's
position is clamped down to the duration. -/
theorem songdata_position_clamp (t a al : Str) (d p : ℚ) (u : Option Str)
    (ht : pyStrip t ≠ []) (ha : pyStrip a ≠ []) (hd : 0 ≤ d) (hp : 0 ≤ p) (hpd : d < p) :
    mkSongData t a al d p u = Except.ok ⟨t, a, al, d, d, u⟩ := by
  simp [mkSongData, hpd, ht, ha, not_lt.mpr hd, not_lt.mpr hp]

/-- C7 witness: position 150 against duration 100 is clamped to 100. -/
theorem songdata_position_clamp_witness :
    mkSongData ['a'] ['b'] [] 100 150 none = Except.ok ⟨['a'], ['b'], [], 100, 100, none⟩ :=
  songdata_position_clamp ['a'] ['b'] [] 100 150 none (by decide) (by decide) (by decide)
    (by decide) (by decide)

/-- C8: a construction whose title or artist is empty or whitespace-only
always fails with a `ValueError` (every branch of `__post_init__` that could
accept it instead raises; no blank snapshot is ever produced). -/
theorem songdata_blank_rejected (t a al : Str) (d p : ℚ) (u : Option Str)
    (h : pyStrip t = [] ∨ pyStrip a = []) :
    exceptIsOk (mkSongData t a al d p u) = false := by
  unfold mkSongData
  split_ifs <;> first | rfl | simp_all [exceptIsOk]

/-- C8 witness: a whitespace-only title is rejected. -/
theorem songdata_blank_rejected_witness :
    exceptIsOk (mkSongData [' '] ['x'] [] 1 1 none) = false :=
  songdata_blank_rejected [' '] ['x'] [] 1 1 none (Or.inl (by decide))

/-- C9: a playing tick at epoch `now` issues one activity update whose
timestamps are `start = now - floor(position)` and
`end = now + floor(duration - position)`. -/
theorem activity_timestamps (now : Int) (ao : Option Str) (uo : Str) (st : LoopState)
    (s : SongData) (hp : 0 ≤ s.position) (hd : s.position ≤ s.duration) :
    ∃ a : Activity, (tick now ao uo (some s) st).2 = [some a] ∧
      a.tsStart = now - ⌊s.position⌋ ∧ a.tsEnd = now + ⌊s.duration - s.position⌋ := by
  unfold tick pyInt
  refine ⟨_, rfl, ?_, ?_⟩
  · simp [hp]
  · simp [sub_nonneg.mpr hd]

/-- C9 witness: duration 200, position 50 at epoch 1000 yields timestamps
950 and 1150, i.e. `T - 50` and `T + 150`. -/
theorem activity_timestamps_witness :
    ∃ a : Activity, (tick 1000 none [] (some wSongA) initLoopState).2 = [some a] ∧
      a.tsStart = 950 ∧ a.tsEnd = 1150 := by
  obtain ⟨a, h1, h2, h3⟩ :=
    activity_timestamps 1000 none [] initLoopState wSongA (by norm_num [wSongA])
      (by norm_num [wSongA])
  refine ⟨a, h1, ?_, ?_⟩
  · rw [h2]; norm_num [wSongA]
  · rw [h3]; norm_num [wSongA]

/-- C1 (code bug): on a parseable header whose length field is 0 (or exceeds
1 MiB), `_read_packet` does not return `(None, None)` — it raises
`ValueError`, which its own `except` clause does not catch.  This theorem
evaluates the model at both failing inputs: an all-zero header (opcode 0,
length 0) and a header with length 1048577. -/
theorem readPacket_bad_length_raises (junk : List Nat) :
    readPacket true (0 :: 0 :: 0 :: 0 :: 0 :: 0 :: 0 :: 0 :: junk) =
      Except.error "Invalid packet length" ∧
    readPacket true (0 :: 0 :: 0 :: 0 :: 1 :: 0 :: 16 :: 0 :: junk) =
      Except.error "Packet too large" :=
  ⟨rfl, rfl⟩

/-- If no candidate in `L` succeeds, the candidate loop returns failure,
leaves `connected` unchanged, and attempts exactly the existing paths of `L`
in order. -/
theorem connectLoop_all_fail (env : ConnEnv) :
    ∀ (L : List Nat) (st : ConnState), (∀ i ∈ L, succB env i = false) →
      (connectLoop env L st).1 = false ∧
      (connectLoop env L st).2.1.connected = st.connected ∧
      (connectLoop env L st).2.2 = L.filter env.pathExists := by
  intro L
  induction L with
  | nil => exact fun st _ => ⟨rfl, rfl, rfl⟩
  | cons i rest ih =>
    intro st h
    have hi := h i (by simp)
    have hrest : ∀ j ∈ rest, succB env j = false := fun j hj => h j (by simp [hj])
    unfold connectLoop
    cases hpe : env.pathExists i with
    | false =>
      rw [if_pos rfl]
      obtain ⟨a, b, c⟩ := ih st hrest
      exact ⟨a, b, by rw [c]; simp [List.filter_cons, hpe]⟩
    | true =>
      rw [if_neg (by simp)]
      cases hh : env.handshake i with
      | exn =>
        simp only []
        obtain ⟨a, b, c⟩ := ih { st with sock := none } hrest
        exact ⟨a, b, by rw [c]; simp [List.filter_cons, hpe]⟩
      | resp r =>
        cases hcs : connectStep r with
        | raised =>
          simp only [hcs]
          obtain ⟨a, b, c⟩ := ih { st with sock := none } hrest
          exact ⟨a, b, by rw [c]; simp [List.filter_cons, hpe]⟩
        | ready b =>
          cases b with
          | true =>
            exfalso
            simp [succB, hpe, hh, hcs] at hi
          | false =>
            simp only [hcs]
            obtain ⟨a, b, c⟩ := ih { st with sock := some i } hrest
            exact ⟨a, b, by rw [c]; simp [List.filter_cons, hpe]⟩

/-- If every candidate before `k` fails and `k` succeeds, the candidate loop
stops at `k`: it returns success, sets `connected` with the socket opened on
path `k`, and has attempted exactly the existing paths before `k`, then `k`. -/
theorem connectLoop_success (env : ConnEnv) :
    ∀ (L1 : List Nat) (k : Nat) (L2 : List Nat) (st : ConnState),
      (∀ i ∈ L1, succB env i = false) → succB env k = true →
      connectLoop env (L1 ++ k :: L2) st =
        (true, ⟨true, some k⟩, L1.filter env.pathExists ++ [k]) := by
  intro L1
  induction L1 with
  | nil =>
    intro k L2 st _ hk
    have hk' := hk
    unfold succB at hk'
    obtain ⟨hpe, hmatch⟩ := (Bool.and_eq_true _ _).mp hk'
    show connectLoop env (k :: L2) st = _
    unfold connectLoop
    rw [if_neg (by simp [hpe])]
    cases hh : env.handshake k with
    | exn => simp [hh] at hmatch
    | resp r =>
      cases hcs : connectStep r with
      | raised => simp [hh, hcs] at hmatch
      | ready b =>
        cases b with
        | false => simp [hh, hcs] at hmatch
        | true => simp [hh, hcs]
  | cons i L1' ih =>
    intro k L2 st h hk
    have hi := h i (by simp)
    have hrest : ∀ j ∈ L1', succB env j = false := fun j hj => h j (by simp [hj])
    show connectLoop env (i :: (L1' ++ k :: L2)) st = _
    unfold connectLoop
    cases hpe : env.pathExists i with
    | false =>
      rw [if_pos rfl, ih k L2 st hrest hk]
      simp [List.filter_cons, hpe]
    | true =>
      rw [if_neg (by simp)]
      cases hh : env.handshake i with
      | exn =>
        simp only [ih k L2 _ hrest hk]
        simp [List.filter_cons, hpe]
      | resp r =>
        cases hcs : connectStep r with
        | raised =>
          simp only [hcs, ih k L2 _ hrest hk]
          simp [List.filter_cons, hpe]
        | ready b =>
          cases b with
          | true =>
            exfalso
            simp [succB, hpe, hh, hcs] at hi
          | false =>
            simp only [hcs, ih k L2 _ hrest hk]
            simp [List.filter_cons, hpe]

/-- Decomposition of the ten-candidate range at an index below ten. -/
theorem range_ten_split (k : Nat) (h : k < 10) :
    List.range 10 = List.range k ++ (k :: List.range' (k + 1) (9 - k)) := by
  rw [List.range_eq_range', List.range_eq_range']
  have h2 := List.range'_append 0 k (10 - k) 1
  rw [show 10 - k + k = 10 by omega] at h2
  simp only [Nat.zero_add, Nat.one_mul] at h2
  rw [← h2]
  congr 1
  rw [show 10 - k = (9 - k) + 1 by omega]
  rw [List.range'_succ]

/-- C2: `connect` probes `discord-ipc-0` through `discord-ipc-9` in ascending
order, skipping paths that do not exist (the attempted-path trace is the
filtered ascending range), stops at the first candidate whose handshake
response has `evt == "READY"` (setting `connected` and returning success),
returns failure without raising when the runtime directory does not exist,
and returns failure with `connected` still false when all ten candidates
fail. -/
theorem connect_probes_in_order (env : ConnEnv) :
    (env.tmpdirExists = false →
      connectRPC env ⟨false, none⟩ = (false, ⟨false, none⟩, [])) ∧
    (env.tmpdirExists = true →
      ((connectRPC env ⟨false, none⟩).1 = true ↔ ∃ i, i < 10 ∧ succB env i = true)) ∧
    ((connectRPC env ⟨false, none⟩).2.1.connected = (connectRPC env ⟨false, none⟩).1) ∧
    (env.tmpdirExists = true → ∀ k, k < 10 → succB env k = true →
      (∀ j, j < k → succB env j = false) →
      connectRPC env ⟨false, none⟩ =
        (true, ⟨true, some k⟩, (List.range (k + 1)).filter env.pathExists)) ∧
    (env.tmpdirExists = true → (∀ i, i < 10 → succB env i = false) →
      (connectRPC env ⟨false, none⟩).1 = false ∧
      (connectRPC env ⟨false, none⟩).2.1.connected = false ∧
      (connectRPC env ⟨false, none⟩).2.2 = (List.range 10).filter env.pathExists) := by
  have hrpc : env.tmpdirExists = true →
      connectRPC env ⟨false, none⟩ = connectLoop env (List.range 10) ⟨false, none⟩ := by
    intro h
    unfold connectRPC
    rw [if_neg (by simp), if_neg (by simp [h])]
  have hmain : ∀ k, k < 10 → succB env k = true → (∀ j, j < k → succB env j = false) →
      connectLoop env (List.range 10) ⟨false, none⟩ =
        (true, ⟨true, some k⟩, (List.range (k + 1)).filter env.pathExists) := by
    intro k hk10 hk hmin
    rw [range_ten_split k hk10]
    rw [connectLoop_success env (List.range k) k _ ⟨false, none⟩
      (fun i hi => hmin i (List.mem_range.mp hi)) hk]
    have hpe : env.pathExists k = true := by
      have hk' := hk
      unfold succB at hk'
      exact ((Bool.and_eq_true _ _).mp hk').1
    rw [List.range_succ, List.filter_append]
    simp [List.filter_cons, hpe]
  have hfail : (∀ i, i < 10 → succB env i = false) →
      (connectLoop env (List.range 10) ⟨false, none⟩).1 = false ∧
      (connectLoop env (List.range 10) ⟨false, none⟩).2.1.connected = false ∧
      (connectLoop env (List.range 10) ⟨false, none⟩).2.2 =
        (List.range 10).filter env.pathExists := by
    intro hall
    exact connectLoop_all_fail env (List.range 10) ⟨false, none⟩
      (fun i hi => hall i (List.mem_range.mp hi))
  have hcold : env.tmpdirExists = false →
      connectRPC env ⟨false, none⟩ = (false, ⟨false, none⟩, []) := by
    intro h
    unfold connectRPC
    rw [if_neg (by simp), if_pos h]
  refine ⟨hcold, ?_, ?_, ?_, ?_⟩
  · intro htd
    constructor
    · intro h1
      by_contra hno
      push_neg at hno
      have hall : ∀ i, i < 10 → succB env i = false := by
        intro i hi
        cases hs : succB env i with
        | false => rfl
        | true => exact absurd hs (hno i hi)
      rw [hrpc htd] at h1
      rw [(hfail hall).1] at h1
      exact Bool.noConfusion h1
    · rintro ⟨i, hi10, hsucc⟩
      have hex : ∃ j, succB env j = true := ⟨i, hsucc⟩
      have hk := Nat.find_spec hex
      have hk10 : Nat.find hex < 10 := Nat.lt_of_le_of_lt (Nat.find_min' hex hsucc) hi10
      have hmin : ∀ j, j < Nat.find hex → succB env j = false := by
        intro j hj
        cases hs : succB env j with
        | false => rfl
        | true => exact absurd hs (Nat.find_min hex hj)
      rw [hrpc htd, hmain (Nat.find hex) hk10 hk hmin]
  · cases htd : env.tmpdirExists with
    | false => rw [hcold htd]
    | true =>
      rw [hrpc htd]
      by_cases hex : ∃ j, succB env j = true ∧ j < 10
      · obtain ⟨i, hsucc, hi10⟩ := hex
        have hex2 : ∃ j, succB env j = true := ⟨i, hsucc⟩
        have hk := Nat.find_spec hex2
        have hk10 : Nat.find hex2 < 10 := Nat.lt_of_le_of_lt (Nat.find_min' hex2 hsucc) hi10
        have hmin : ∀ j, j < Nat.find hex2 → succB env j = false := by
          intro j hj
          cases hs : succB env j with
          | false => rfl
          | true => exact absurd hs (Nat.find_min hex2 hj)
        rw [hmain (Nat.find hex2) hk10 hk hmin]
      · push_neg at hex
        have hall : ∀ i, i < 10 → succB env i = false := by
          intro i hi
          cases hs : succB env i with
          | false => rfl
          | true => exact absurd hi (Nat.not_lt.mpr (hex i hs))
        obtain ⟨a, b, _⟩ := hfail hall
        rw [a, b]
  · intro htd k hk10 hk hmin
    rw [hrpc htd]
    exact hmain k hk10 hk hmin
  · intro htd hall
    have h3 := hfail hall
    rw [hrpc htd]
    exact h3

/-- C2 witness: in an environment where only paths 2 and 5 exist, path 2
answers a non-READY event and path 5 answers READY, `connect` succeeds on
path 5 with trace [2, 5]. -/
theorem connect_probes_in_order_witness :
    connectRPC wConnEnv ⟨false, none⟩ = (true, ⟨true, some 5⟩, [2, 5]) := by
  rw [(connect_probes_in_order wConnEnv).2.2.2.1 rfl 5 (by decide) (by decide) (by decide)]
  decide

/-- A string strips to empty exactly when it is all whitespace. -/
theorem pyStrip_eq_nil_iff (s : Str) : pyStrip s = [] ↔ s.all pyIsSpace = true := by
  constructor
  · intro h
    unfold pyStrip at h
    rw [List.reverse_eq_nil_iff, List.dropWhile_eq_nil_iff] at h
    have h2 : ∀ x ∈ s.dropWhile pyIsSpace, pyIsSpace x = true := by
      intro x hx
      exact h x (List.mem_reverse.mpr hx)
    rw [List.all_eq_true]
    intro x hx
    rw [← List.takeWhile_append_dropWhile (p := pyIsSpace) (l := s)] at hx
    rcases List.mem_append.mp hx with hx | hx
    · exact List.mem_takeWhile_imp hx
    · exact h2 x hx
  · intro h
    unfold pyStrip
    have h1 : s.dropWhile pyIsSpace = [] := by
      rw [List.dropWhile_eq_nil_iff]
      exact fun x hx => List.all_eq_true.mp h x hx
    rw [h1]
    rfl

/-- Joining two strings with a space strips to empty exactly when both parts
strip to empty. -/
theorem pyStrip_append_space (x y : Str) :
    pyStrip (x ++ ' ' :: y) = [] ↔ (pyStrip x = [] ∧ pyStrip y = []) := by
  rw [pyStrip_eq_nil_iff, pyStrip_eq_nil_iff, pyStrip_eq_nil_iff]
  simp [List.all_append, List.all_cons, (by decide : pyIsSpace ' ' = true)]

/-- When no result matches, the selection loop finds nothing. -/
theorem findMatch_none (artist title : Str) :
    ∀ results, (∀ x ∈ results, resultMatches artist title x = false) →
      findMatch artist title results = none := by
  intro results
  induction results with
  | nil => intro _; rfl
  | cons r rest ih =>
    intro h
    unfold findMatch
    rw [if_neg (by simp [h r (by simp)])]
    exact ih (fun x hx => h x (by simp [hx]))

/-- The selection loop returns the link of the first matching result that
carries a truthy string link. -/
theorem findMatch_first (artist title : Str) :
    ∀ (pre : List ITunesResult) (r : ITunesResult) (post : List ITunesResult) (u : Str),
      (∀ x ∈ pre, resultMatches artist title x = false) →
      resultMatches artist title r = true → r.trackViewUrl = some u → u ≠ [] →
      findMatch artist title (pre ++ r :: post) = some u := by
  intro pre
  induction pre with
  | nil =>
    intro r post u _ hm hu hne
    show findMatch artist title (r :: post) = some u
    unfold findMatch
    rw [if_pos hm, hu]
    simp [hne]
  | cons x pre2 ih =>
    intro r post u h hm hu hne
    show findMatch artist title (x :: (pre2 ++ r :: post)) = some u
    unfold findMatch
    rw [if_neg (by simp [h x (by simp)])]
    exact ih r post u (fun y hy => h y (by simp [hy])) hm hu hne

/-- Whatever the selection loop returns is a non-empty link (the loop skips
matches with a missing or empty link). -/
theorem findMatch_some_ne (artist title : Str) :
    ∀ results u, findMatch artist title results = some u → u ≠ [] := by
  intro results
  induction results with
  | nil =>
    intro u h
    exact absurd h (by simp [findMatch])
  | cons r rest ih =>
    intro u h
    unfold findMatch at h
    by_cases hm : resultMatches artist title r = true
    · rw [if_pos hm] at h
      cases hu : r.trackViewUrl with
      | none =>
        simp only [hu] at h
        exact ih u h
      | some v =>
        simp only [hu] at h
        by_cases hv : v = []
        · rw [if_pos hv] at h
          exact ih u h
        · rw [if_neg hv] at h
          exact Option.some.inj h ▸ hv
    · rw [if_neg hm] at h
      exact ih u h

/-- Replacement with a non-empty replacement string preserves non-emptiness. -/
theorem replaceAux_ne_nil (pat rep : Str) (hrep : rep ≠ []) :
    ∀ fuel s, s ≠ [] → replaceAux pat rep fuel s ≠ [] := by
  intro fuel
  induction fuel with
  | zero =>
    intro s hs
    simpa [replaceAux] using hs
  | succ f _ =>
    intro s hs
    unfold replaceAux
    split_ifs with h
    · simp [hrep]
    · cases s with
      | nil => exact absurd rfl hs
      | cons c t => simp

/-- The fallback URL is never empty. -/
theorem fallbackUrl_ne_nil (artist title : Str) : fallbackUrl artist title ≠ [] := by
  unfold fallbackUrl
  split_ifs
  · decide
  · simp [amSearchBase]

/-- C10: the canonical-URL lookup returns the domain-rewritten
(`itunes.apple.com` to `music.apple.com`) link of the first result whose
artist and title both case-insensitively substring-match in either direction
(so with results 1-2 non-matching and result 3 matching, result 3's rewritten
link is returned); when no result matches it returns the deterministic
fallback search URL built from the artist and title; and the function never
returns an empty string. -/
theorem apple_music_url_selection (artist title : Str) (results pre post : List ITunesResult)
    (r : ITunesResult) (u : Str) :
    (¬(pyStrip artist = [] ∧ pyStrip title = []) →
      (∀ x ∈ pre, resultMatches artist title x = false) →
      resultMatches artist title r = true → r.trackViewUrl = some u → u ≠ [] →
      getAppleMusicUrl artist title (.ok (pre ++ r :: post)) =
        pyReplace u itunesDomain musicDomain) ∧
    ((∀ x ∈ results, resultMatches artist title x = false) →
      getAppleMusicUrl artist title (.ok results) = fallbackUrl artist title) ∧
    (∀ resp, getAppleMusicUrl artist title resp ≠ []) := by
  have hquery : ¬(pyStrip artist = [] ∧ pyStrip title = []) →
      ¬(pyStrip (title ++ ' ' :: artist) = []) := by
    intro h hq
    rw [pyStrip_append_space] at hq
    exact h ⟨hq.2, hq.1⟩
  refine ⟨?_, ?_, ?_⟩
  · intro hb hpre hm hu hne
    unfold getAppleMusicUrl
    rw [if_neg hb, if_neg (hquery hb)]
    simp only [findMatch_first artist title pre r post u hpre hm hu hne]
  · intro hall
    by_cases hb : pyStrip artist = [] ∧ pyStrip title = []
    · unfold getAppleMusicUrl fallbackUrl
      rw [if_pos hb, if_pos (by rw [pyStrip_append_space]; exact hb)]
    · unfold getAppleMusicUrl
      rw [if_neg hb, if_neg (hquery hb)]
      simp only [findMatch_none artist title results hall]
  · intro resp
    unfold getAppleMusicUrl
    split_ifs
    · decide
    · decide
    · cases resp with
      | fail => exact fallbackUrl_ne_nil artist title
      | ok results2 =>
        cases hf : findMatch artist title results2 with
        | none =>
          simp only [hf]
          exact fallbackUrl_ne_nil artist title
        | some u2 =>
          simp only [hf]
          exact replaceAux_ne_nil itunesDomain musicDomain (by decide) u2.length u2
            (findMatch_some_ne artist title results2 u2 hf)

/-- C10 witness: with results 1-2 non-matching and result 3 matching, the
lookup returns result 3's domain-rewritten link. -/
theorem apple_music_url_selection_witness :
    getAppleMusicUrl ("Artist B".toList) ("Song A".toList)
        (ITunesResp.ok ([wRes1, wRes2] ++ wRes3 :: [])) =
      pyReplace ("https://itunes.apple.com/us/album/song-a/123".toList)
        itunesDomain musicDomain :=
  (apple_music_url_selection ("Artist B".toList) ("Song A".toList) [] [wRes1, wRes2] []
    wRes3 ("https://itunes.apple.com/us/album/song-a/123".toList)).1 (by decide) (by decide)
    (by decide) rfl (by decide)

/-- Every digit the decimal expansion emits is below ten. -/
theorem natToDigitsRev_lt_ten : ∀ fuel n, ∀ d ∈ natToDigitsRev fuel n, d < 10 := by
  intro fuel
  induction fuel with
  | zero =>
    intro n d hd
    simp [natToDigitsRev] at hd
  | succ f ih =>
    intro n d hd
    unfold natToDigitsRev at hd
    by_cases h : n = 0
    · simp [h] at hd
    · rw [if_neg h] at hd
      rcases List.mem_cons.mp hd with h1 | h1
      · rw [h1]
        omega
      · exact ih (n / 10) d h1

/-- Folding the least-significant-first digits back recovers the number. -/
theorem natToDigitsRev_val : ∀ fuel n, n ≤ fuel →
    List.foldr (fun d acc => acc * 10 + d) 0 (natToDigitsRev fuel n) = n := by
  intro fuel
  induction fuel with
  | zero =>
    intro n h
    have hn : n = 0 := by omega
    rw [hn]
    rfl
  | succ f ih =>
    intro n h
    unfold natToDigitsRev
    by_cases hn : n = 0
    · simp [hn]
    · rw [if_neg hn]
      simp only [List.foldr_cons]
      have hdiv : n / 10 < n := Nat.div_lt_self (Nat.pos_of_ne_zero hn) (by norm_num)
      rw [ih (n / 10) (by omega)]
      omega

theorem digitChar_isDigit (d : Nat) (h : d < 10) : isDigitCh (digitChar d) = true := by
  interval_cases d <;> decide

theorem digitChar_val (d : Nat) (h : d < 10) : (digitChar d).toNat - 48 = d := by
  interval_cases d <;> decide

/-- Every character of a printed natural number is a decimal digit. -/
theorem dumpNat_digits (n : Nat) : ∀ c ∈ dumpNat n, isDigitCh c = true := by
  intro c hc
  unfold dumpNat at hc
  by_cases h : n = 0
  · rw [if_pos h] at hc
    simp at hc
    rw [hc]
    decide
  · rw [if_neg h] at hc
    rw [List.mem_map] at hc
    obtain ⟨d, hd, hcd⟩ := hc
    rw [List.mem_reverse] at hd
    rw [← hcd]
    exact digitChar_isDigit d (natToDigitsRev_lt_ten n n d hd)

theorem dumpNat_ne_nil (n : Nat) : dumpNat n ≠ [] := by
  unfold dumpNat
  by_cases h : n = 0
  · simp [h]
  · rw [if_neg h]
    obtain ⟨m, rfl⟩ : ∃ m, n = m + 1 := ⟨n - 1, by omega⟩
    simp [natToDigitsRev]

/-- Parsing the printed digits of a natural number recovers it. -/
theorem parseNatVal_dumpNat (n : Nat) : parseNatVal (dumpNat n) = n := by
  unfold dumpNat
  by_cases h : n = 0
  · rw [if_pos h, h]
    decide
  · rw [if_neg h]
    have haux : ∀ L : List Nat, (∀ d ∈ L, d < 10) →
        List.foldr (fun d acc => acc * 10 + ((digitChar d).toNat - 48)) 0 L =
        List.foldr (fun d acc => acc * 10 + d) 0 L := by
      intro L
      induction L with
      | nil => intro _; rfl
      | cons d L2 ihl =>
        intro hmem
        simp only [List.foldr_cons]
        rw [ihl (fun x hx => hmem x (by simp [hx])), digitChar_val d (hmem d (by simp))]
    unfold parseNatVal
    rw [List.foldl_map, List.foldl_reverse]
    rw [haux _ (natToDigitsRev_lt_ten n n)]
    exact natToDigitsRev_val n n le_rfl

/-- `takeWhile` on an append whose first part wholly satisfies the predicate
and whose second part starts failing it takes exactly the first part. -/
theorem takeWhile_all_append (p : Char → Bool) (l1 l2 : Str)
    (h1 : ∀ c ∈ l1, p c = true) (h2 : ∀ c, l2.head? = some c → p c = false) :
    (l1 ++ l2).takeWhile p = l1 := by
  induction l1 with
  | nil =>
    cases l2 with
    | nil => rfl
    | cons c t => simp [List.takeWhile, h2 c rfl]
  | cons c t ih =>
    simp only [List.cons_append, List.takeWhile]
    rw [h1 c (by simp)]
    simp [ih (fun x hx => h1 x (by simp [hx]))]

/-- Parsing digits out of a printed natural followed by a non-digit
remainder recovers the number and the remainder. -/
theorem parseNatPart_dump (n : Nat) (rest : Str)
    (hrest : ∀ c, rest.head? = some c → isDigitCh c = false) :
    parseNatPart (dumpNat n ++ rest) = some (n, rest) := by
  unfold parseNatPart
  have htw : (dumpNat n ++ rest).takeWhile isDigitCh = dumpNat n :=
    takeWhile_all_append _ _ _ (dumpNat_digits n) hrest
  rw [htw, if_neg (dumpNat_ne_nil n), parseNatVal_dumpNat, List.drop_left]

/-- Parsing a printed integer followed by a non-digit remainder recovers it. -/
theorem parseNum_dumpInt (n : Int) (rest : Str)
    (hrest : ∀ c, rest.head? = some c → isDigitCh c = false) :
    parseNum (dumpInt n ++ rest) = some (Json.num n, rest) := by
  unfold dumpInt
  by_cases h : n < 0
  · rw [if_pos h]
    unfold parseNum
    simp only [List.cons_append, List.head?_cons, List.tail_cons]
    rw [if_pos trivial]
    rw [parseNatPart_dump n.natAbs rest hrest]
    show some (Json.num (-(n.natAbs : Int)), rest) = some (Json.num n, rest)
    have habs : -((n.natAbs : Int)) = n := by omega
    rw [habs]
  · rw [if_neg h]
    have hne : dumpNat n.natAbs ≠ [] := dumpNat_ne_nil _
    obtain ⟨c, t, hct⟩ : ∃ c t, dumpNat n.natAbs = c :: t := by
      cases hd : dumpNat n.natAbs with
      | nil => exact absurd hd hne
      | cons c t => exact ⟨c, t, rfl⟩
    have hcdig : isDigitCh c = true := dumpNat_digits _ c (by rw [hct]; simp)
    unfold parseNum
    rw [hct, List.cons_append]
    rw [if_neg (by
      simp only [List.head?_cons]
      intro hc
      cases Option.some.inj hc
      exact absurd hcdig (by decide))]
    rw [← List.cons_append, ← hct, parseNatPart_dump n.natAbs rest hrest]
    show some (Json.num ((n.natAbs : Int)), rest) = some (Json.num n, rest)
    have habs : ((n.natAbs : Int)) = n := by omega
    rw [habs]

/-- One-step unfolding of the string-body parser on a cons cell. -/
theorem parseStrBody_cons (c : Char) (t : Str) :
    parseStrBody (c :: t) =
      if c = '"' then some ([], t)
      else if c = '\\' then
        match t with
        | [] => none
        | e :: t2 =>
          if e = '"' ∨ e = '\\' then (parseStrBody t2).map (fun p => (e :: p.1, p.2)) else none
      else (parseStrBody t).map (fun p => (c :: p.1, p.2)) := by
  rw [parseStrBody.eq_def]
  rfl

/-- Parsing the escaped body of a string followed by its closing quote
recovers the string and the remainder. -/
theorem parseStrBody_escape : ∀ (s : Str) (rest : Str),
    parseStrBody (escapeStr s ++ '"' :: rest) = some (s, rest) := by
  intro s
  induction s with
  | nil =>
    intro rest
    show parseStrBody ('"' :: rest) = some ([], rest)
    rw [parseStrBody_cons, if_pos rfl]
  | cons c0 s2 ih =>
    intro rest
    have hesc : escapeStr (c0 :: s2) = escapeChar c0 ++ escapeStr s2 := by simp [escapeStr]
    rw [hesc, List.append_assoc]
    by_cases h1 : c0 = '"'
    · subst h1
      have he : escapeChar '"' = ['\\', '"'] := by decide
      rw [he]
      simp only [List.cons_append, List.nil_append]
      show (parseStrBody (escapeStr s2 ++ '"' :: rest)).map (fun p => ('"' :: p.1, p.2)) =
        some ('"' :: s2, rest)
      rw [ih rest]
      rfl
    · by_cases h2 : c0 = '\\'
      · subst h2
        have he : escapeChar '\\' = ['\\', '\\'] := by decide
        rw [he]
        simp only [List.cons_append, List.nil_append]
        show (parseStrBody (escapeStr s2 ++ '"' :: rest)).map (fun p => ('\\' :: p.1, p.2)) =
          some ('\\' :: s2, rest)
        rw [ih rest]
        rfl
      · have he : escapeChar c0 = [c0] := by simp [escapeChar, h1, h2]
        rw [he]
        simp only [List.cons_append, List.nil_append]
        rw [parseStrBody_cons, if_neg h1, if_neg h2, ih rest]
        rfl

/-- Every printed JSON value is non-empty and starts with a character that is
neither a closing bracket nor a closing brace. -/
theorem dumpJson_head (j : Json) :
    ∃ c t, dumpJson j = c :: t ∧ c ≠ ']' ∧ c ≠ '\x7d' := by
  cases j with
  | null => exact ⟨'n', _, rfl, by decide, by decide⟩
  | bool b =>
    cases b with
    | true => exact ⟨'t', _, rfl, by decide, by decide⟩
    | false => exact ⟨'f', _, rfl, by decide, by decide⟩
  | num n =>
    show ∃ c t, dumpInt n = c :: t ∧ c ≠ ']' ∧ c ≠ '\x7d'
    unfold dumpInt
    by_cases h : n < 0
    · rw [if_pos h]
      exact ⟨'-', _, rfl, by decide, by decide⟩
    · rw [if_neg h]
      obtain ⟨c, t, hct⟩ : ∃ c t, dumpNat n.natAbs = c :: t := by
        cases hd : dumpNat n.natAbs with
        | nil => exact absurd hd (dumpNat_ne_nil _)
        | cons c t => exact ⟨c, t, rfl⟩
      have hcd : isDigitCh c = true := dumpNat_digits _ c (by rw [hct]; simp)
      refine ⟨c, t, hct, ?_, ?_⟩
      · intro hc
        rw [hc] at hcd
        exact absurd hcd (by decide)
      · intro hc
        rw [hc] at hcd
        exact absurd hcd (by decide)
  | str s => exact ⟨'"', _, rfl, by decide, by decide⟩
  | arr xs => exact ⟨'[', _, rfl, by decide, by decide⟩
  | obj kvs => exact ⟨'\x7b', _, rfl, by decide, by decide⟩

/-- A non-empty printed item list starts with its first item's print. -/
theorem dumpArr_cons_ex (x : Json) (xs : List Json) :
    ∃ w, dumpArr (x :: xs) = dumpJson x ++ w := by
  cases xs with
  | nil => exact ⟨[], by simp [dumpArr]⟩
  | cons y ys => exact ⟨',' :: ' ' :: dumpArr (y :: ys), rfl⟩

/-- A non-empty printed field list starts with a double quote. -/
theorem dumpObj_cons_ex (k : Str) (v : Json) (kvs2 : List (Str × Json)) :
    ∃ w, dumpObj ((k, v) :: kvs2) = '"' :: w := by
  cases kvs2 with
  | nil => exact ⟨_, rfl⟩
  | cons kv kvs3 => exact ⟨_, rfl⟩

theorem sizeJ_pos (j : Json) : 1 ≤ sizeJ j := by
  cases j <;> simp [sizeJ]

/-- One-step unfolding of the value parser on a cons cell. -/
theorem parseVal_step (fuel : Nat) (c : Char) (t : Str) :
    parseVal (fuel + 1) (c :: t) =
      if isDigitCh c ∨ c = '-' then parseNum (c :: t)
      else if c = '"' then (parseStrBody t).map (fun p => (Json.str p.1, p.2))
      else if c = '[' then
        if t.head? = some ']' then some (Json.arr [], t.tail)
        else (parseItems fuel t).map (fun p => (Json.arr p.1, p.2))
      else if c = '\x7b' then
        if t.head? = some '\x7d' then some (Json.obj [], t.tail)
        else (parseFields fuel t).map (fun p => (Json.obj p.1, p.2))
      else
        match c, t with
        | 'n', 'u' :: 'l' :: 'l' :: rest => some (Json.null, rest)
        | 't', 'r' :: 'u' :: 'e' :: rest => some (Json.bool true, rest)
        | 'f', 'a' :: 'l' :: 's' :: 'e' :: rest => some (Json.bool false, rest)
        | _, _ => none := rfl

/-- One-step unfolding of the item-list parser. -/
theorem parseItems_step (fuel : Nat) (s : Str) :
    parseItems (fuel + 1) s =
      match parseVal fuel s with
      | none => none
      | some (x, r) =>
        match r with
        | ',' :: ' ' :: r2 => (parseItems fuel r2).map (fun p => (x :: p.1, p.2))
        | ']' :: r2 => some ([x], r2)
        | _ => none := rfl

/-- Item-list parser: a first value whose remainder closes the list. -/
theorem parseItems_done (fuel : Nat) (s : Str) (x : Json) (r2 : Str)
    (hx : parseVal fuel s = some (x, ']' :: r2)) :
    parseItems (fuel + 1) s = some ([x], r2) := by
  rw [parseItems_step, hx]
  rfl

/-- Item-list parser: a first value followed by a separator continues. -/
theorem parseItems_more (fuel : Nat) (s : Str) (x : Json) (r2 : Str)
    (hx : parseVal fuel s = some (x, ',' :: ' ' :: r2)) :
    parseItems (fuel + 1) s = (parseItems fuel r2).map (fun p => (x :: p.1, p.2)) := by
  rw [parseItems_step, hx]
  rfl

/-- One-step unfolding of the field-list parser behind an opening quote. -/
theorem parseFields_quote (fuel : Nat) (s1 : Str) :
    parseFields (fuel + 1) ('"' :: s1) =
      match parseStrBody s1 with
      | some (k, r1) =>
        match r1 with
        | ':' :: ' ' :: r2 =>
          match parseVal fuel r2 with
          | some (v, r3) =>
            match r3 with
            | ',' :: ' ' :: r4 => (parseFields fuel r4).map (fun p => ((k, v) :: p.1, p.2))
            | '\x7d' :: r4 => some ([(k, v)], r4)
            | _ => none
          | none => none
        | _ => none
      | none => none := rfl

/-- Field-list parser: a first binding whose remainder closes the object. -/
theorem parseFields_done (fuel : Nat) (s1 : Str) (k : Str) (r2 : Str) (v : Json) (r4 : Str)
    (hk : parseStrBody s1 = some (k, ':' :: ' ' :: r2))
    (hv : parseVal fuel r2 = some (v, '\x7d' :: r4)) :
    parseFields (fuel + 1) ('"' :: s1) = some ([(k, v)], r4) := by
  rw [parseFields_quote, hk]
  show (match parseVal fuel r2 with
    | some (v2, r3) =>
      match r3 with
      | ',' :: ' ' :: r5 => (parseFields fuel r5).map (fun p => ((k, v2) :: p.1, p.2))
      | '\x7d' :: r5 => some ([(k, v2)], r5)
      | _ => none
    | none => none) = some ([(k, v)], r4)
  rw [hv]
  rfl

/-- Field-list parser: a first binding followed by a separator continues. -/
theorem parseFields_more (fuel : Nat) (s1 : Str) (k : Str) (r2 : Str) (v : Json) (r4 : Str)
    (hk : parseStrBody s1 = some (k, ':' :: ' ' :: r2))
    (hv : parseVal fuel r2 = some (v, ',' :: ' ' :: r4)) :
    parseFields (fuel + 1) ('"' :: s1) =
      (parseFields fuel r4).map (fun p => ((k, v) :: p.1, p.2)) := by
  rw [parseFields_quote, hk]
  show (match parseVal fuel r2 with
    | some (v2, r3) =>
      match r3 with
      | ',' :: ' ' :: r5 => (parseFields fuel r5).map (fun p => ((k, v2) :: p.1, p.2))
      | '\x7d' :: r5 => some ([(k, v2)], r5)
      | _ => none
    | none => none) = (parseFields fuel r4).map (fun p => ((k, v) :: p.1, p.2))
  rw [hv]
  rfl

/-- The parsers undo the printer: parsing `dumpJson j` (resp. a printed item
or field list) followed by any remainder that cannot extend it recovers
exactly the printed value and the remainder.  Proved for every fuel at least
the parser-call count of the value. -/
theorem parse_dump_aux : ∀ fuel : Nat,
    (∀ j rest, sizeJ j ≤ fuel → (∀ c, rest.head? = some c → isDigitCh c = false) →
      parseVal fuel (dumpJson j ++ rest) = some (j, rest)) ∧
    (∀ xs rest, xs ≠ [] → sizeItems xs ≤ fuel →
      parseItems fuel (dumpArr xs ++ ']' :: rest) = some (xs, rest)) ∧
    (∀ kvs rest, kvs ≠ [] → sizeFields kvs ≤ fuel →
      parseFields fuel (dumpObj kvs ++ '\x7d' :: rest) = some (kvs, rest)) := by
  intro fuel
  induction fuel using Nat.strong_induction_on with
  | _ fuel ih =>
  refine ⟨?_, ?_, ?_⟩
  · intro j rest hsz hrest
    cases fuel with
    | zero => exact absurd hsz (by have := sizeJ_pos j; omega)
    | succ f =>
    cases j with
    | null =>
      show parseVal (f + 1) (['n', 'u', 'l', 'l'] ++ rest) = some (Json.null, rest)
      rfl
    | bool b =>
      cases b with
      | true =>
        show parseVal (f + 1) (['t', 'r', 'u', 'e'] ++ rest) = some (Json.bool true, rest)
        rfl
      | false =>
        show parseVal (f + 1) (['f', 'a', 'l', 's', 'e'] ++ rest) = some (Json.bool false, rest)
        rfl
    | num n =>
      obtain ⟨c, t, hct, hc⟩ : ∃ c t, dumpInt n = c :: t ∧ (isDigitCh c = true ∨ c = '-') := by
        unfold dumpInt
        by_cases h : n < 0
        · rw [if_pos h]
          exact ⟨'-', _, rfl, Or.inr rfl⟩
        · rw [if_neg h]
          cases hd : dumpNat n.natAbs with
          | nil => exact absurd hd (dumpNat_ne_nil _)
          | cons c t => exact ⟨c, t, rfl, Or.inl (dumpNat_digits _ c (by rw [hd]; simp))⟩
      have hnum := parseNum_dumpInt n rest hrest
      show parseVal (f + 1) (dumpInt n ++ rest) = some (Json.num n, rest)
      rw [hct] at hnum ⊢
      rw [List.cons_append] at hnum ⊢
      rw [parseVal_step, if_pos hc]
      exact hnum
    | str s =>
      show parseVal (f + 1) (('"' :: (escapeStr s ++ ['"'])) ++ rest) = some (Json.str s, rest)
      rw [List.cons_append, List.append_assoc]
      simp only [List.singleton_append]
      rw [parseVal_step, if_neg (by decide), if_pos rfl, parseStrBody_escape s rest]
      rfl
    | arr xs =>
      cases xs with
      | nil =>
        show parseVal (f + 1) (('[' :: (dumpArr [] ++ [']'])) ++ rest) = some (Json.arr [], rest)
        rfl
      | cons x xs2 =>
        have hs1 : sizeJ (Json.arr (x :: xs2)) = 1 + sizeItems (x :: xs2) := rfl
        have hsz2 : sizeItems (x :: xs2) ≤ f := by omega
        have hitems := (ih f (by omega)).2.1 (x :: xs2) rest (by simp) hsz2
        show parseVal (f + 1) (('[' :: (dumpArr (x :: xs2) ++ [']'])) ++ rest) =
          some (Json.arr (x :: xs2), rest)
        rw [List.cons_append, List.append_assoc]
        simp only [List.singleton_append]
        rw [parseVal_step, if_neg (by decide), if_neg (by decide), if_pos rfl]
        obtain ⟨w, hw⟩ := dumpArr_cons_ex x xs2
        obtain ⟨c, t, hct, hc1, _⟩ := dumpJson_head x
        have hhead : (dumpArr (x :: xs2) ++ ']' :: rest).head? = some c := by
          rw [hw, hct]
          rfl
        rw [if_neg (by rw [hhead]; simp [hc1]), hitems]
        rfl
    | obj kvs =>
      cases kvs with
      | nil =>
        show parseVal (f + 1) (('\x7b' :: (dumpObj [] ++ ['\x7d'])) ++ rest) =
          some (Json.obj [], rest)
        rfl
      | cons kv kvs2 =>
        obtain ⟨k, v⟩ := kv
        have hs1 : sizeJ (Json.obj ((k, v) :: kvs2)) = 1 + sizeFields ((k, v) :: kvs2) := rfl
        have hsz2 : sizeFields ((k, v) :: kvs2) ≤ f := by omega
        have hfields := (ih f (by omega)).2.2 ((k, v) :: kvs2) rest (by simp) hsz2
        show parseVal (f + 1) (('\x7b' :: (dumpObj ((k, v) :: kvs2) ++ ['\x7d'])) ++ rest) =
          some (Json.obj ((k, v) :: kvs2), rest)
        rw [List.cons_append, List.append_assoc]
        simp only [List.singleton_append]
        rw [parseVal_step, if_neg (by decide), if_neg (by decide), if_neg (by decide),
          if_pos rfl]
        obtain ⟨w, hw⟩ := dumpObj_cons_ex k v kvs2
        have hhead : (dumpObj ((k, v) :: kvs2) ++ '\x7d' :: rest).head? = some '"' := by
          rw [hw]
          rfl
        rw [if_neg (by rw [hhead]; decide), hfields]
        rfl
  · intro xs rest hne hsz
    cases xs with
    | nil => exact absurd rfl hne
    | cons x xs2 =>
      have hs1 : sizeItems (x :: xs2) = 1 + sizeJ x + sizeItems xs2 := rfl
      cases fuel with
      | zero => exact absurd hsz (by omega)
      | succ f =>
      have hszx : sizeJ x ≤ f := by omega
      cases xs2 with
      | nil =>
        have hx := (ih f (by omega)).1 x (']' :: rest) hszx (by
          intro c hc
          rw [List.head?_cons] at hc
          cases Option.some.inj hc
          decide)
        show parseItems (f + 1) (dumpJson x ++ ']' :: rest) = some ([x], rest)
        exact parseItems_done f _ x rest hx
      | cons y ys =>
        have hx := (ih f (by omega)).1 x (',' :: ' ' :: (dumpArr (y :: ys) ++ ']' :: rest))
          hszx (by
          intro c hc
          rw [List.head?_cons] at hc
          cases Option.some.inj hc
          decide)
        have hs2 : sizeItems (y :: ys) ≤ f := by omega
        have hrec := (ih f (by omega)).2.1 (y :: ys) rest (by simp) hs2
        show parseItems (f + 1) ((dumpJson x ++ ',' :: ' ' :: dumpArr (y :: ys)) ++ ']' :: rest) =
          some (x :: y :: ys, rest)
        rw [List.append_assoc]
        simp only [List.cons_append]
        rw [parseItems_more f _ x _ hx, hrec]
        rfl
  · intro kvs rest hne hsz
    cases kvs with
    | nil => exact absurd rfl hne
    | cons kv kvs2 =>
      obtain ⟨k, v⟩ := kv
      have hs1 : sizeFields ((k, v) :: kvs2) = 1 + sizeJ v + sizeFields kvs2 := rfl
      cases fuel with
      | zero => exact absurd hsz (by omega)
      | succ f =>
      have hszv : sizeJ v ≤ f := by omega
      cases kvs2 with
      | nil =>
        have hv := (ih f (by omega)).1 v ('\x7d' :: rest) hszv (by
          intro c hc
          rw [List.head?_cons] at hc
          cases Option.some.inj hc
          decide)
        show parseFields (f + 1)
          (('"' :: (escapeStr k ++ '"' :: ':' :: ' ' :: dumpJson v)) ++ '\x7d' :: rest) =
          some ([(k, v)], rest)
        rw [List.cons_append, List.append_assoc]
        simp only [List.cons_append]
        exact parseFields_done f _ k _ v rest (parseStrBody_escape k _) hv
      | cons kv2 kvs3 =>
        have hv := (ih f (by omega)).1 v
          (',' :: ' ' :: (dumpObj (kv2 :: kvs3) ++ '\x7d' :: rest)) hszv (by
          intro c hc
          rw [List.head?_cons] at hc
          cases Option.some.inj hc
          decide)
        have hs2 : sizeFields (kv2 :: kvs3) ≤ f := by omega
        have hrec := (ih f (by omega)).2.2 (kv2 :: kvs3) rest (by simp) hs2
        show parseFields (f + 1)
          ((('"' :: (escapeStr k ++ '"' :: ':' :: ' ' :: dumpJson v)) ++
            ',' :: ' ' :: dumpObj (kv2 :: kvs3)) ++ '\x7d' :: rest) =
          some ((k, v) :: kv2 :: kvs3, rest)
        rw [List.append_assoc, List.cons_append, List.append_assoc]
        simp only [List.cons_append]
        rw [parseFields_more f _ k _ v _ (parseStrBody_escape k _) hv, hrec]
        rfl

/-- The parser-call count of a value is bounded by its printed length plus
one (so `loads`'s fuel of length-plus-one always suffices). -/
theorem dump_size_aux : ∀ n : Nat,
    (∀ j, sizeJ j ≤ n → sizeJ j ≤ (dumpJson j).length + 1) ∧
    (∀ xs, sizeItems xs ≤ n → sizeItems xs ≤ (dumpArr xs).length + 2) ∧
    (∀ kvs, sizeFields kvs ≤ n → sizeFields kvs ≤ (dumpObj kvs).length + 2) := by
  intro n
  induction n using Nat.strong_induction_on with
  | _ n ih =>
  refine ⟨?_, ?_, ?_⟩
  · intro j hsz
    cases j with
    | null => simp [sizeJ, dumpJson]
    | bool b => cases b <;> simp [sizeJ, dumpJson]
    | num n2 =>
      have h1 : sizeJ (Json.num n2) = 1 := rfl
      omega
    | str s =>
      have h1 : sizeJ (Json.str s) = 1 := rfl
      omega
    | arr xs =>
      have h1 : sizeJ (Json.arr xs) = 1 + sizeItems xs := rfl
      have h0 := sizeJ_pos (Json.arr xs)
      have h2 := (ih (n - 1) (by omega)).2.1 xs (by omega)
      have hlen : (dumpJson (Json.arr xs)).length = (dumpArr xs).length + 2 := by
        show ('[' :: (dumpArr xs ++ [']'])).length = _
        simp
      omega
    | obj kvs =>
      have h1 : sizeJ (Json.obj kvs) = 1 + sizeFields kvs := rfl
      have h0 := sizeJ_pos (Json.obj kvs)
      have h2 := (ih (n - 1) (by omega)).2.2 kvs (by omega)
      have hlen : (dumpJson (Json.obj kvs)).length = (dumpObj kvs).length + 2 := by
        show ('\x7b' :: (dumpObj kvs ++ ['\x7d'])).length = _
        simp
      omega
  · intro xs hsz
    cases xs with
    | nil => simp [sizeItems, dumpArr]
    | cons x xs2 =>
      have hs1 : sizeItems (x :: xs2) = 1 + sizeJ x + sizeItems xs2 := rfl
      have hx := sizeJ_pos x
      have h1 := (ih (n - 1) (by omega)).1 x (by omega)
      cases xs2 with
      | nil =>
        have hda : (dumpArr [x]).length = (dumpJson x).length := rfl
        have hs0 : sizeItems ([] : List Json) = 0 := rfl
        omega
      | cons y ys =>
        have h2 := (ih (n - 1) (by omega)).2.1 (y :: ys) (by omega)
        have hlen : (dumpArr (x :: y :: ys)).length =
            (dumpJson x).length + (2 + (dumpArr (y :: ys)).length) := by
          show (dumpJson x ++ ',' :: ' ' :: dumpArr (y :: ys)).length = _
          simp
          omega
        omega
  · intro kvs hsz
    cases kvs with
    | nil => simp [sizeFields, dumpObj]
    | cons kv kvs2 =>
      obtain ⟨k, v⟩ := kv
      have hs1 : sizeFields ((k, v) :: kvs2) = 1 + sizeJ v + sizeFields kvs2 := rfl
      have hv := sizeJ_pos v
      have h1 := (ih (n - 1) (by omega)).1 v (by omega)
      cases kvs2 with
      | nil =>
        have hlen : (dumpObj [(k, v)]).length =
            (escapeStr k).length + 4 + (dumpJson v).length := by
          show ('"' :: (escapeStr k ++ '"' :: ':' :: ' ' :: dumpJson v)).length = _
          simp
          omega
        have hs0 : sizeFields ([] : List (Str × Json)) = 0 := rfl
        omega
      | cons kv2 kvs3 =>
        have h2 := (ih (n - 1) (by omega)).2.2 (kv2 :: kvs3) (by omega)
        have hlen : (dumpObj ((k, v) :: kv2 :: kvs3)).length =
            (escapeStr k).length + 4 + (dumpJson v).length + 2 +
              (dumpObj (kv2 :: kvs3)).length := by
          show (('"' :: (escapeStr k ++ '"' :: ':' :: ' ' :: dumpJson v)) ++
            ',' :: ' ' :: dumpObj (kv2 :: kvs3)).length = _
          simp
          omega
        omega

/-- `json.loads` undoes `json.dumps` on the model. -/
theorem loads_dumpJson (j : Json) : loads (dumpJson j) = some j := by
  unfold loads
  have hfuel : sizeJ j ≤ (dumpJson j).length + 1 := (dump_size_aux (sizeJ j)).1 j le_rfl
  have h := (parse_dump_aux ((dumpJson j).length + 1)).1 j [] hfuel (by
    intro c hc
    simp at hc)
  rw [List.append_nil] at h
  rw [h]

theorem dumpNat_ascii (n : Nat) : ∀ c ∈ dumpNat n, c.toNat < 128 := by
  intro c hc
  have h := dumpNat_digits n c hc
  simp [isDigitCh] at h
  omega

theorem escapeStr_ascii (s : Str) (hs : okString s = true) : ∀ c ∈ escapeStr s, c.toNat < 128 := by
  induction s with
  | nil =>
    intro c hc
    simp [escapeStr] at hc
  | cons c0 s2 ih =>
    intro c hc
    have hesc : escapeStr (c0 :: s2) = escapeChar c0 ++ escapeStr s2 := by simp [escapeStr]
    rw [hesc, List.mem_append] at hc
    have hok : okChar c0 = true ∧ okString s2 = true := by
      simpa [okString, List.all_cons, Bool.and_eq_true] using hs
    rcases hc with hc | hc
    · unfold escapeChar at hc
      split_ifs at hc with h1 h2
      · simp at hc
        rcases hc with rfl | rfl <;> decide
      · simp at hc
        rcases hc with rfl | rfl <;> decide
      · simp at hc
        rw [hc]
        have := hok.1
        simp [okChar] at this
        omega
    · exact ih hok.2 c hc

/-- Everything the printer emits for a well-formed payload is ASCII (this is
what makes the model's ASCII codec agree with Python's UTF-8 one). -/
theorem dump_ascii_aux : ∀ n : Nat,
    (∀ j, sizeJ j ≤ n → wfJson j = true → ∀ c ∈ dumpJson j, c.toNat < 128) ∧
    (∀ xs, sizeItems xs ≤ n → wfList xs = true → ∀ c ∈ dumpArr xs, c.toNat < 128) ∧
    (∀ kvs, sizeFields kvs ≤ n → wfFields kvs = true → ∀ c ∈ dumpObj kvs, c.toNat < 128) := by
  intro n
  induction n using Nat.strong_induction_on with
  | _ n ih =>
  refine ⟨?_, ?_, ?_⟩
  · intro j hsz hwf c hc
    cases j with
    | null =>
      have hc2 : c ∈ ('n' :: 'u' :: 'l' :: 'l' :: []) := hc
      simp only [List.mem_cons, List.not_mem_nil, or_false] at hc2
      rcases hc2 with rfl | rfl | rfl | rfl <;> decide
    | bool b =>
      cases b with
      | true =>
        have hc2 : c ∈ ('t' :: 'r' :: 'u' :: 'e' :: []) := hc
        simp only [List.mem_cons, List.not_mem_nil, or_false] at hc2
        rcases hc2 with rfl | rfl | rfl | rfl <;> decide
      | false =>
        have hc2 : c ∈ ('f' :: 'a' :: 'l' :: 's' :: 'e' :: []) := hc
        simp only [List.mem_cons, List.not_mem_nil, or_false] at hc2
        rcases hc2 with rfl | rfl | rfl | rfl | rfl <;> decide
    | num n2 =>
      have hc2 : c ∈ dumpInt n2 := hc
      unfold dumpInt at hc2
      split_ifs at hc2
      · rcases List.mem_cons.mp hc2 with rfl | hc3
        · decide
        · exact dumpNat_ascii _ c hc3
      · exact dumpNat_ascii _ c hc2
    | str s =>
      have hc2 : c ∈ '"' :: (escapeStr s ++ ['"']) := hc
      rcases List.mem_cons.mp hc2 with rfl | hc3
      · decide
      · rcases List.mem_append.mp hc3 with hc4 | hc4
        · exact escapeStr_ascii s hwf c hc4
        · simp at hc4
          rw [hc4]
          decide
    | arr xs =>
      have h0 := sizeJ_pos (Json.arr xs)
      have hs1 : sizeJ (Json.arr xs) = 1 + sizeItems xs := rfl
      have hc2 : c ∈ '[' :: (dumpArr xs ++ [']']) := hc
      rcases List.mem_cons.mp hc2 with rfl | hc3
      · decide
      · rcases List.mem_append.mp hc3 with hc4 | hc4
        · exact (ih (n - 1) (by omega)).2.1 xs (by omega) hwf c hc4
        · simp at hc4
          rw [hc4]
          decide
    | obj kvs =>
      have h0 := sizeJ_pos (Json.obj kvs)
      have hs1 : sizeJ (Json.obj kvs) = 1 + sizeFields kvs := rfl
      have hc2 : c ∈ '\x7b' :: (dumpObj kvs ++ ['\x7d']) := hc
      rcases List.mem_cons.mp hc2 with rfl | hc3
      · decide
      · rcases List.mem_append.mp hc3 with hc4 | hc4
        · exact (ih (n - 1) (by omega)).2.2 kvs (by omega) hwf c hc4
        · simp at hc4
          rw [hc4]
          decide
  · intro xs hsz hwf c hc
    cases xs with
    | nil => simp [dumpArr] at hc
    | cons x xs2 =>
      have hs1 : sizeItems (x :: xs2) = 1 + sizeJ x + sizeItems xs2 := rfl
      have hx := sizeJ_pos x
      have hwf2 : wfJson x = true ∧ wfList xs2 = true := by
        simpa [wfList, Bool.and_eq_true] using hwf
      cases xs2 with
      | nil =>
        have hda : dumpArr [x] = dumpJson x := rfl
        rw [hda] at hc
        exact (ih (n - 1) (by omega)).1 x (by omega) hwf2.1 c hc
      | cons y ys =>
        have hda : dumpArr (x :: y :: ys) = dumpJson x ++ ',' :: ' ' :: dumpArr (y :: ys) := rfl
        rw [hda] at hc
        rcases List.mem_append.mp hc with hc2 | hc2
        · exact (ih (n - 1) (by omega)).1 x (by omega) hwf2.1 c hc2
        · rcases List.mem_cons.mp hc2 with rfl | hc3
          · decide
          · rcases List.mem_cons.mp hc3 with rfl | hc4
            · decide
            · exact (ih (n - 1) (by omega)).2.1 (y :: ys) (by omega) hwf2.2 c hc4
  · intro kvs hsz hwf c hc
    cases kvs with
    | nil => simp [dumpObj] at hc
    | cons kv kvs2 =>
      obtain ⟨k, v⟩ := kv
      have hs1 : sizeFields ((k, v) :: kvs2) = 1 + sizeJ v + sizeFields kvs2 := rfl
      have hv := sizeJ_pos v
      have hwf2 : okString k = true ∧ wfJson v = true ∧ wfFields kvs2 = true := by
        simpa [wfFields, Bool.and_eq_true, and_assoc] using hwf
      have hkv : ∀ c2 ∈ '"' :: (escapeStr k ++ '"' :: ':' :: ' ' :: dumpJson v),
          c2.toNat < 128 := by
        intro c2 hc2
        rcases List.mem_cons.mp hc2 with rfl | hc3
        · decide
        · rcases List.mem_append.mp hc3 with hc4 | hc4
          · exact escapeStr_ascii k hwf2.1 c2 hc4
          · rcases List.mem_cons.mp hc4 with rfl | hc5
            · decide
            · rcases List.mem_cons.mp hc5 with rfl | hc6
              · decide
              · rcases List.mem_cons.mp hc6 with rfl | hc7
                · decide
                · exact (ih (n - 1) (by omega)).1 v (by omega) hwf2.2.1 c2 hc7
      cases kvs2 with
      | nil =>
        have hdo : dumpObj [(k, v)] = '"' :: (escapeStr k ++ '"' :: ':' :: ' ' :: dumpJson v) :=
          rfl
        rw [hdo] at hc
        exact hkv c hc
      | cons kv2 kvs3 =>
        have hdo : dumpObj ((k, v) :: kv2 :: kvs3) =
            ('"' :: (escapeStr k ++ '"' :: ':' :: ' ' :: dumpJson v)) ++
              ',' :: ' ' :: dumpObj (kv2 :: kvs3) := rfl
        rw [hdo] at hc
        rcases List.mem_append.mp hc with hc2 | hc2
        · exact hkv c hc2
        · rcases List.mem_cons.mp hc2 with rfl | hc3
          · decide
          · rcases List.mem_cons.mp hc3 with rfl | hc4
            · decide
            · exact (ih (n - 1) (by omega)).2.2 (kv2 :: kvs3) (by omega) hwf2.2.2 c hc4

/-- Little-endian reassembly undoes the byte split for any uint32. -/
theorem readLE32_le32 (m : Nat) (h : m < 4294967296) :
    readLE32 (m % 256) (m / 256 % 256) (m / 65536 % 256) (m / 16777216 % 256) = m := by
  unfold readLE32
  omega

/-- One-step unfolding of `_read_packet` on a stream holding a full header. -/
theorem readPacket_step (b0 b1 b2 b3 b4 b5 b6 b7 : Nat) (tail : List Nat) :
    readPacket true (b0 :: b1 :: b2 :: b3 :: b4 :: b5 :: b6 :: b7 :: tail) =
      (if 1048576 < readLE32 b4 b5 b6 b7 then Except.error "Packet too large"
       else if readLE32 b4 b5 b6 b7 = 0 then Except.error "Invalid packet length"
       else
         match asciiDecode (tail.take (readLE32 b4 b5 b6 b7)) with
         | none => Except.ok (none, none)
         | some s =>
           match loads s with
           | none => Except.ok (none, none)
           | some j => Except.ok (some (readLE32 b0 b1 b2 b3), some j)) := rfl

/-- C6: for every opcode in the uint32 range and every well-formed payload
whose printed form is at most 1 MiB, `_send_packet` produces a byte stream
from which `_read_packet` returns the same opcode and an equal payload value
(the payload survives `dumps`, UTF-8 encoding, framing, and `loads`). -/
theorem packet_roundtrip (op : Nat) (p : Json) (hop : op < 4294967296)
    (hwf : wfJson p = true) (hlen : (dumpJson p).length ≤ 1048576) :
    ∃ bytes, sendPacketBytes op p = Except.ok bytes ∧
      readPacket true bytes = Except.ok (some op, some p) := by
  have hplen : (asciiEncode (dumpJson p)).length = (dumpJson p).length := by simp [asciiEncode]
  refine ⟨le32 op ++ le32 (asciiEncode (dumpJson p)).length ++ asciiEncode (dumpJson p), ?_, ?_⟩
  · unfold sendPacketBytes
    rw [if_pos ⟨hop, by omega⟩]
  · have hLlt : (asciiEncode (dumpJson p)).length < 4294967296 := by omega
    have hop2 := readLE32_le32 op hop
    have hL2 := readLE32_le32 (asciiEncode (dumpJson p)).length hLlt
    have hLpos : (dumpJson p).length ≠ 0 := by
      obtain ⟨c, t, hct, _, _⟩ := dumpJson_head p
      rw [hct]
      simp
    have hdec : asciiDecode (asciiEncode (dumpJson p)) = some (dumpJson p) := by
      unfold asciiDecode asciiEncode
      rw [if_pos (by
        rw [List.all_eq_true]
        intro b hb
        rw [List.mem_map] at hb
        obtain ⟨c, hc, rfl⟩ := hb
        have := (dump_ascii_aux (sizeJ p)).1 p le_rfl hwf c hc
        simpa using this)]
      rw [List.map_map]
      have hmap : (dumpJson p).map (Char.ofNat ∘ Char.toNat) = (dumpJson p).map id :=
        List.map_congr_left (fun c _ => Char.ofNat_toNat c)
      rw [hmap, List.map_id]
    simp only [le32, List.cons_append, List.nil_append]
    rw [readPacket_step, hop2, hL2]
    rw [if_neg (by omega), if_neg (by omega)]
    rw [List.take_length, hdec]
    show (match loads (dumpJson p) with
      | none => Except.ok (none, none)
      | some j => Except.ok (some op, some j)) = Except.ok (some op, some p)
    rw [loads_dumpJson p]

/-- C6 witness: the handshake payload round-trips through the framing at
opcode 1. -/
theorem packet_roundtrip_witness :
    ∃ bytes, sendPacketBytes 1 wPayload = Except.ok bytes ∧
      readPacket true bytes = Except.ok (some 1, some wPayload) :=
  packet_roundtrip 1 wPayload (by decide) (by decide) (by decide)
